import Mathlib

/-! # Scalable syslog: scheduler orchestrator, bindings multiset and egress connector

A shallow embedding of

* `scheduler/app/orchestrator.go` (`Orchestrator.Run`, `createBindings`,
  `cleanupBindings`, `exists`, `Stop`),
* `scheduler/internal/ingress/bindings.go` (`Bindings.DrainCount`),
* `adapter/internal/ingress/connector.go` (`Connector.Connect`).

The blacklist filter of `scheduler/internal/ingress`, of which only the tests
are at hand, is modelled from the specification.

Go strings are Lean strings, a Go `error` is `Option String` (`none` is `nil`),
interfaces (`BindingReader`, `AdapterPool`, the balancer, the dialer) are
records of state-passing functions over an arbitrary state type, so that a
theorem quantified over the record holds for every behaviour of the
collaborator.  Every call made on the adapter pool is appended to a trace.
-/

set_option autoImplicit false

namespace ScalableSyslog

/-- Go `error`: `none` is `nil`, `some msg` is a non-nil error. -/
abbrev error := Option String

namespace v1

/-- The protobuf message `v1.Binding`: three string fields. The orchestrator
handles `*v1.Binding`; the pointers it dereferences are taken to be non-nil. -/
structure Binding where
  Hostname : String
  AppId : String
  Drain : String
deriving DecidableEq, Repr

end v1

/-- Modelled from the spec: the value type of `AppBindings`, whose declaration is
not part of the sources at hand ("a record `(Hostname, Drains: ordered sequence
of URL strings)`"); `createBindings` and `exists` read exactly these two
fields. -/
structure CupsBinding where
  Hostname : String
  Drains : List String
deriving DecidableEq, Repr

/-- Modelled from the spec: `AppBindings`, a Go map from AppId (unique key) to a
`CupsBinding`. The map is an association list without duplicate keys; the order
of `entries` stands for the order in which one `range` over the map visits the
keys, which Go leaves unspecified. -/
structure AppBindings where
  entries : List (String × CupsBinding)
  nodup : (entries.map Prod.fst).Nodup

/-- Map index with the comma-ok form, `b, ok := m[k]`. -/
def AppBindings.get? (m : AppBindings) (k : String) : Option CupsBinding :=
  (m.entries.find? (fun e => e.1 == k)).map Prod.snd

/-- The calls the orchestrator can make on the `AdapterPool` interface. -/
inductive PoolCall where
  | List : PoolCall
  | Create : v1.Binding → PoolCall
  | Delete : v1.Binding → PoolCall
deriving DecidableEq, Repr

/-- Interface `AdapterPool` over a pool state `σ`. `List` returns both a value
and an error, as the Go signature does. -/
structure AdapterPool (σ : Type) where
  Create : v1.Binding → σ → error × σ
  Delete : v1.Binding → σ → error × σ
  List : σ → (List (List v1.Binding) × error) × σ

/-- Interface `BindingReader` over a reader state `ρ`. -/
structure BindingReader (ρ : Type) where
  FetchBindings : ρ → (AppBindings × error) × ρ

/-- The struct `Orchestrator`. `reader` and `pool` are the two interface values
fixed by `NewOrchestrator`; `readerSt` and `poolSt` are the current states of
the objects behind them; `calls` is the trace of the calls made on the pool so
far, oldest first; `once` tells whether the `sync.Once` has fired; `done` counts
the values handed over on the unbuffered channel `done`. -/
structure Orchestrator (ρ σ : Type) where
  reader : BindingReader ρ
  pool : AdapterPool σ
  readerSt : ρ
  poolSt : σ
  calls : List PoolCall
  once : Bool
  done : Nat

/-- The constructor `NewOrchestrator(r, w)`, with the initial states of the two
collaborators. -/
def NewOrchestrator {ρ σ : Type} (r : BindingReader ρ) (w : AdapterPool σ)
    (rs : ρ) (ws : σ) : Orchestrator ρ σ :=
  { reader := r, pool := w, readerSt := rs, poolSt := ws, calls := [],
    once := false, done := 0 }

namespace Orchestrator

variable {ρ σ : Type}

/-- The call `o.pool.List()`: the result, and the orchestrator afterwards. -/
def callList (o : Orchestrator ρ σ) :
    (List (List v1.Binding) × error) × Orchestrator ρ σ :=
  ((o.pool.List o.poolSt).1,
    { o with poolSt := (o.pool.List o.poolSt).2, calls := o.calls ++ [PoolCall.List] })

/-- The call `o.pool.Delete(ab)`; `cleanupBindings` discards the error. -/
def callDelete (o : Orchestrator ρ σ) (ab : v1.Binding) : Orchestrator ρ σ :=
  { o with poolSt := (o.pool.Delete ab o.poolSt).2,
           calls := o.calls ++ [PoolCall.Delete ab] }

/-- The call `o.pool.Create(b)`; `createBindings` only logs the error. -/
def callCreate (o : Orchestrator ρ σ) (b : v1.Binding) : Orchestrator ρ σ :=
  { o with poolSt := (o.pool.Create b o.poolSt).2,
           calls := o.calls ++ [PoolCall.Create b] }

end Orchestrator

/-- The loop of `exists`: `for _, d := range b.Drains`, returning `true` at the
first drain equal to the one searched for. -/
def existsLoop (drain : String) : List String → Bool
  | [] => false
  | d :: ds => if d == drain then true else existsLoop drain ds

/-- The function `exists(actualBindings, ab)`. -/
def «exists» (actualBindings : AppBindings) (ab : v1.Binding) : Bool :=
  match actualBindings.get? ab.AppId with
  | none => false
  | some b => existsLoop ab.Drain b.Drains

/-- The first loop nest of `cleanupBindings`: every listed binding for which
`exists` is false is appended to `toDelete`. -/
def toDeleteLoop (expectedBindings : AppBindings)
    (actualBindings : List (List v1.Binding)) : List v1.Binding :=
  actualBindings.foldl
    (fun toDelete adapterBindings =>
      adapterBindings.foldl
        (fun toDelete ab =>
          if !(«exists» expectedBindings ab) then toDelete ++ [ab] else toDelete)
        toDelete)
    []

namespace Orchestrator

variable {ρ σ : Type}

/-- The method `Orchestrator.cleanupBindings`. -/
def cleanupBindings (o : Orchestrator ρ σ) (expectedBindings : AppBindings) :
    Orchestrator ρ σ :=
  let r := o.callList
  match r.1.2 with
  | some _ => r.2
  | none => (toDeleteLoop expectedBindings r.1.1).foldl callDelete r.2

/-- The method `Orchestrator.createBindings`; the outer loop visits the map in
the order of `expectedBindings.entries`. -/
def createBindings (o : Orchestrator ρ σ) (expectedBindings : AppBindings) :
    Orchestrator ρ σ :=
  expectedBindings.entries.foldl
    (fun o e =>
      e.2.Drains.foldl
        (fun o drain =>
          o.callCreate { Hostname := e.2.Hostname, AppId := e.1, Drain := drain })
        o)
    o

/-- The body of the `time.Tick` case of `Run`: one reconciliation tick. -/
def tick (o : Orchestrator ρ σ) : Orchestrator ρ σ :=
  let r := o.reader.FetchBindings o.readerSt
  let o1 := { o with readerSt := r.2 }
  match r.1.2 with
  | some _ => o1
  | none => (o1.cleanupBindings r.1.1).createBindings r.1.1

end Orchestrator

/-- Which case of the `select` in `Run` fires. -/
inductive Select where
  | tick : Select
  | done : Select
deriving DecidableEq, Repr

namespace Orchestrator

variable {ρ σ : Type}

/-- The method `Orchestrator.Run`, driven by the successive outcomes of its
`select`. The boolean tells whether `Run` has returned; `false` means that the
loop is waiting in `select` for the next outcome. -/
def Run (o : Orchestrator ρ σ) : List Select → Orchestrator ρ σ × Bool
  | [] => (o, false)
  | Select.done :: _ => (o, true)
  | Select.tick :: rest => Run o.tick rest

/-- The method `Orchestrator.Stop`. `received` tells whether the send on the
unbuffered channel `done` is taken by a receiver (the `select` of `Run`); when
it is not, the send never completes and `Stop` does not return (`none`). -/
def Stop (o : Orchestrator ρ σ) (received : Bool) : Option (Orchestrator ρ σ) :=
  if o.once then some o
  else if received then some { o with once := true, done := o.done + 1 }
  else none

/-- Successive calls of `Stop`, each starting when the one before has returned;
one `received` flag per call. -/
def StopAll (o : Orchestrator ρ σ) : List Bool → Option (Orchestrator ρ σ)
  | [] => some o
  | received :: rest =>
    match o.Stop received with
    | none => none
    | some o1 => StopAll o1 rest

end Orchestrator

/-- The `Delete` calls of a trace, in order. -/
def deletesOf : List PoolCall → List v1.Binding
  | [] => []
  | PoolCall.Delete b :: t => b :: deletesOf t
  | _ :: t => deletesOf t

/-- The `Create` calls of a trace, in order. -/
def createsOf : List PoolCall → List v1.Binding
  | [] => []
  | PoolCall.Create b :: t => b :: createsOf t
  | _ :: t => createsOf t

/-- The bindings an `AppBindings` describes: one triple
`(hostname, appId, drain)` per app and per position in its `Drains`. -/
def expectedTriples (expected : AppBindings) : List v1.Binding :=
  expected.entries.flatMap
    (fun e => e.2.Drains.map
      (fun d => { Hostname := e.2.Hostname, AppId := e.1, Drain := d }))

/-- A pool without state: `List` always answers `(actual, err)`, `Create` and
`Delete` always answer `res`. -/
def constPool (actual : List (List v1.Binding)) (err res : error) : AdapterPool Unit :=
  { Create := fun _ s => (res, s),
    Delete := fun _ s => (res, s),
    List := fun s => ((actual, err), s) }

/-- A reader without state: `FetchBindings` always answers `(b, err)`. -/
def constReader (b : AppBindings) (err : error) : BindingReader Unit :=
  { FetchBindings := fun s => ((b, err), s) }

/-- The type `Bindings`, a slice of `v1.Binding` values. -/
abbrev Bindings := List v1.Binding

/-- The method `Bindings.DrainCount`: the loop adds one to `count` for every
element equal to `search` (Go struct equality, all fields). -/
def Bindings.DrainCount (b : Bindings) (search : v1.Binding) : Nat :=
  b.foldl (fun count binding => if binding == search then count + 1 else count) 0

/-- The balancer as `Connect` uses it: `NextHostPort` answers a host:port and an
error, over a balancer state `β`. -/
structure Balancer (β : Type) where
  NextHostPort : β → (String × error) × β

/-- The two package functions `Connect` calls: `grpc.Dial`, over a network state
`δ`, answering a connection pointer and an error, and `v2.NewEgressClient`. -/
structure Grpc (δ Conn Client Opt : Type) where
  Dial : String → List Opt → δ → (Conn × error) × δ
  NewEgressClient : Conn → Client

/-- The struct `Connector`. -/
structure Connector (β Opt : Type) where
  opts : List Opt
  balancer : Balancer β

/-- The function `NewConnector`. -/
def NewConnector {β Opt : Type} (balancer : Balancer β) (opts : List Opt) :
    Connector β Opt :=
  { balancer := balancer, opts := opts }

/-- What `Connect` acts on: the balancer state, the network state, and the trace
of the dials attempted so far (target and options), oldest first. -/
structure Net (β δ Opt : Type) where
  balancerSt : β
  netSt : δ
  dials : List (String × List Opt)

/-- The method `Connector.Connect`. The result is `(closer, client, err)`, each
`none` when the Go value is `nil`. -/
def Connector.Connect {β δ Conn Client Opt : Type} (c : Connector β Opt)
    (g : Grpc δ Conn Client Opt) (w : Net β δ Opt) :
    (Option Conn × Option Client × error) × Net β δ Opt :=
  let r := c.balancer.NextHostPort w.balancerSt
  let w1 := { w with balancerSt := r.2 }
  match r.1.2 with
  | some err => ((none, none, some err), w1)
  | none =>
    let d := g.Dial r.1.1 c.opts w1.netSt
    let w2 := { w1 with netSt := d.2, dials := w1.dials ++ [(r.1.1, c.opts)] }
    match d.1.2 with
    | some err => ((none, none, some err), w2)
    | none => ((some d.1.1, some (g.NewEgressClient d.1.1), none), w2)

/-! ## Sample collaborators -/

/-- Sample binding `(h, a, d1)`. -/
def bindingD1 : v1.Binding := { Hostname := "h", AppId := "a", Drain := "d1" }

/-- Sample binding `(h, a, d2)`. -/
def bindingD2 : v1.Binding := { Hostname := "h", AppId := "a", Drain := "d2" }

/-- Sample binding `(other, a, d1)`: as `bindingD1` but on another hostname. -/
def bindingOtherHost : v1.Binding := { Hostname := "other", AppId := "a", Drain := "d1" }

/-- Sample expected bindings `{a: {h, [d1]}}`. -/
def expectedD1 : AppBindings :=
  { entries := [("a", { Hostname := "h", Drains := ["d1"] })], nodup := by decide }

/-- Sample expected bindings with two apps, `{a: {h, [d1, d2]}, b: {h, [d1]}}`. -/
def expectedTwoApps : AppBindings :=
  { entries := [("a", { Hostname := "h", Drains := ["d1", "d2"] }),
                ("b", { Hostname := "h", Drains := ["d1"] })],
    nodup := by decide }

/-- Sample orchestrator: the reader answers `expected` with error `ferr`, the
pool lists `actual` with error `lerr`, and `Create` and `Delete` fail. -/
def sampleOrchestrator (expected : AppBindings) (ferr : error)
    (actual : List (List v1.Binding)) (lerr : error) : Orchestrator Unit Unit :=
  NewOrchestrator (constReader expected ferr) (constPool actual lerr (some "rpc failed")) () ()

/-- Sample balancer over a list of candidates: empty list is an error, otherwise
the head is returned and moved to the back. -/
def sampleBalancer : Balancer (List String) :=
  { NextHostPort := fun hs =>
      match hs with
      | [] => (("", some "no host"), [])
      | h :: t => ((h, none), t ++ [h]) }

/-- Sample dialer: the network state is the list of reachable targets; the
connection is named after its target. -/
def sampleGrpc : Grpc (List String) String String Nat :=
  { Dial := fun hp _ up => if hp ∈ up then ((hp, none), up) else (("", some "unreachable"), up),
    NewEgressClient := fun conn => "client:" ++ conn }

/-! ## Blacklist filter -/

/-- Modelled from the spec: an IPv4 address as `CheckBlacklist` receives it, four
octets, the most significant first. The sources at hand hold only the tests of
the blacklist filter. -/
structure IPv4 where
  o1 : Fin 256
  o2 : Fin 256
  o3 : Fin 256
  o4 : Fin 256
deriving DecidableEq, Repr

/-- Modelled from the spec: the value of an address as a "32-bit unsigned
big-endian integer", the comparison key of the blacklist filter. -/
def IPv4.toUInt32 (ip : IPv4) : Nat :=
  ip.o1.val * 2 ^ 24 + ip.o2.val * 2 ^ 16 + ip.o3.val * 2 ^ 8 + ip.o4.val

/-- Modelled from the spec: the scan of a dotted-quad literal. `cur` holds the
value and the number of digits of the field being read, `acc` the fields read
so far; a field has one to three decimal digits. -/
def parseFields : List Char → Option (Nat × Nat) → List Nat → Option (List Nat)
  | [], none, _ => none
  | [], some (n, _), acc => some (acc ++ [n])
  | c :: cs, cur, acc =>
    if c = '.' then
      match cur with
      | none => none
      | some (n, _) => parseFields cs none (acc ++ [n])
    else if c.isDigit then
      match cur with
      | none => parseFields cs (some (c.toNat - 48, 1)) acc
      | some (n, k) =>
        if k < 3 then parseFields cs (some (n * 10 + (c.toNat - 48), k + 1)) acc else none
    else none

/-- Modelled from the spec: "a valid IPv4 literal" is four dot-separated decimal
fields, each at most 255. -/
def parseIPv4 (s : String) : Option IPv4 :=
  match parseFields s.data none [] with
  | some [a, b, c, d] =>
    if h : a < 256 ∧ b < 256 ∧ c < 256 ∧ d < 256 then
      some { o1 := ⟨a, h.1⟩, o2 := ⟨b, h.2.1⟩, o3 := ⟨c, h.2.2.1⟩, o4 := ⟨d, h.2.2.2⟩ }
    else none
  | _ => none

/-- Modelled from the spec: `BlacklistRange`, the pair `(Start, End)`, written as
the tests write it, with two address literals. -/
structure BlacklistRange where
  Start : String
  End : String
deriving DecidableEq, Repr

/-- Modelled from the spec: the filter `BlacklistRanges`, holding the configured
ranges. -/
structure BlacklistRanges where
  Ranges : List BlacklistRange
deriving DecidableEq, Repr

/-- Modelled from the spec: the validation of one range; "`InvalidAddress` if any
endpoint is not a valid IPv4 literal, and `InvalidRange` if `Start > End`". The
messages are those the tests expect. -/
def validateRange (r : BlacklistRange) : error :=
  match parseIPv4 r.Start, parseIPv4 r.End with
  | none, _ => some ("invalid IP Address for Blacklist IP Range: " ++ r.Start)
  | some _, none => some ("invalid IP Address for Blacklist IP Range: " ++ r.End)
  | some s, some e =>
    if e.toUInt32 < s.toUInt32 then
      some ("invalid Blacklist IP Range: Start " ++ r.Start ++ " has to be before End " ++ r.End)
    else none

/-- Modelled from the spec: the validation of the whole set; "any construction
error aborts the whole set". -/
def validateRanges : List BlacklistRange → error
  | [] => none
  | r :: rs =>
    match validateRange r with
    | some err => some err
    | none => validateRanges rs

/-- Modelled from the spec: the constructor `NewBlacklistRanges(ranges...)`,
"constructed from zero or more `BlacklistRange` values". -/
def NewBlacklistRanges (ranges : List BlacklistRange) : Except String BlacklistRanges :=
  match validateRanges ranges with
  | some err => Except.error err
  | none => Except.ok { Ranges := ranges }

/-- Modelled from the spec: whether `ip` "lies within the closed interval" of the
range `r`, the addresses "compared as 32-bit unsigned big-endian integers". -/
def BlacklistRange.contains (r : BlacklistRange) (ip : IPv4) : Bool :=
  match parseIPv4 r.Start, parseIPv4 r.End with
  | some s, some e => decide (s.toUInt32 ≤ ip.toUInt32) && decide (ip.toUInt32 ≤ e.toUInt32)
  | _, _ => false

/-- Modelled from the spec: the scan of `CheckBlacklist` over the configured
ranges, answering an error at the first range holding `ip`. -/
def checkRanges (ip : IPv4) : List BlacklistRange → error
  | [] => none
  | r :: rs => if r.contains ip then some "Syslog Drain blacklisted" else checkRanges ip rs

/-- Modelled from the spec: `CheckBlacklist(ip)`, "returns `Blacklisted` iff `ip`
lies within the closed interval of any configured range". -/
def BlacklistRanges.CheckBlacklist (f : BlacklistRanges) (ip : IPv4) : error :=
  checkRanges ip f.Ranges

/-! ## Lemmas on the map and on `exists` -/

theorem existsLoop_iff (drain : String) (ds : List String) :
    existsLoop drain ds = true ↔ drain ∈ ds := by
  induction ds with
  | nil => simp [existsLoop]
  | cons d ds ih =>
    by_cases h : d = drain
    · simp [existsLoop, h]
    · have h2 : ¬ drain = d := fun e => h e.symm
      simp [existsLoop, h, h2, ih]

theorem find_key_of_mem (l : List (String × CupsBinding)) (k : String) (cb : CupsBinding)
    (hnd : (l.map Prod.fst).Nodup) (hmem : (k, cb) ∈ l) :
    l.find? (fun e => e.1 == k) = some (k, cb) := by
  induction l with
  | nil => simp at hmem
  | cons e l ih =>
    rw [List.map_cons, List.nodup_cons] at hnd
    rcases List.mem_cons.1 hmem with h | h
    · subst h
      simp
    · have hne : ¬ e.1 = k := by
        intro he
        apply hnd.1
        rw [he]
        exact List.mem_map.2 ⟨(k, cb), h, rfl⟩
      rw [List.find?_cons_of_neg _ (by simpa using hne)]
      exact ih hnd.2 h

theorem AppBindings.get?_eq_some_iff (m : AppBindings) (k : String) (cb : CupsBinding) :
    m.get? k = some cb ↔ (k, cb) ∈ m.entries := by
  constructor
  · intro h
    unfold AppBindings.get? at h
    cases hf : m.entries.find? (fun e => e.1 == k) with
    | none => simp [hf] at h
    | some e =>
      rw [hf] at h
      have hk : e.1 = k := by simpa using List.find?_some hf
      have hm : e ∈ m.entries := List.mem_of_find?_eq_some hf
      have hc : e.2 = cb := by simpa using h
      rw [← hk, ← hc]
      exact hm
  · intro h
    unfold AppBindings.get?
    rw [find_key_of_mem m.entries k cb m.nodup h]
    rfl

theorem AppBindings.get?_eq_none_iff (m : AppBindings) (k : String) :
    m.get? k = none ↔ k ∉ m.entries.map Prod.fst := by
  constructor
  · intro h hk
    obtain ⟨e, he, hek⟩ := List.mem_map.1 hk
    have : m.get? k = some e.2 := (m.get?_eq_some_iff k e.2).2 (by rw [← hek]; exact he)
    rw [h] at this
    cases this
  · intro h
    cases hg : m.get? k with
    | none => rfl
    | some cb =>
      exact absurd (List.mem_map.2 ⟨(k, cb), (m.get?_eq_some_iff k cb).1 hg, rfl⟩) h

theorem exists_eq_true_iff (m : AppBindings) (ab : v1.Binding) :
    «exists» m ab = true ↔
      ∃ cb, (ab.AppId, cb) ∈ m.entries ∧ ab.Drain ∈ cb.Drains := by
  unfold «exists»
  cases hg : m.get? ab.AppId with
  | none =>
    simp only [Bool.false_eq_true, false_iff]
    rintro ⟨cb, hcb, _⟩
    have := (m.get?_eq_some_iff ab.AppId cb).2 hcb
    rw [hg] at this
    cases this
  | some b =>
    simp only [existsLoop_iff]
    constructor
    · intro h
      exact ⟨b, (m.get?_eq_some_iff ab.AppId b).1 hg, h⟩
    · rintro ⟨cb, hcb, hd⟩
      have := (m.get?_eq_some_iff ab.AppId cb).2 hcb
      rw [hg] at this
      cases this
      exact hd

theorem exists_eq_false_iff (m : AppBindings) (ab : v1.Binding) :
    «exists» m ab = false ↔
      (ab.AppId ∉ m.entries.map Prod.fst ∨
        ∃ cb, (ab.AppId, cb) ∈ m.entries ∧ ab.Drain ∉ cb.Drains) := by
  rw [← Bool.not_eq_true, exists_eq_true_iff]
  constructor
  · intro h
    by_cases hk : ab.AppId ∈ m.entries.map Prod.fst
    · obtain ⟨e, he, hek⟩ := List.mem_map.1 hk
      have he2 : (ab.AppId, e.2) ∈ m.entries := by rw [← hek]; exact he
      exact Or.inr ⟨e.2, he2, fun hd => h ⟨e.2, he2, hd⟩⟩
    · exact Or.inl hk
  · rintro (h | ⟨cb, hcb, hd⟩) ⟨cb2, hcb2, hd2⟩
    · exact h (List.mem_map.2 ⟨(ab.AppId, cb2), hcb2, rfl⟩)
    · have h1 := (m.get?_eq_some_iff ab.AppId cb).2 hcb
      have h2 := (m.get?_eq_some_iff ab.AppId cb2).2 hcb2
      rw [h1] at h2
      cases h2
      exact hd hd2

/-! ## Lemmas on the loops of `cleanupBindings` -/

theorem toDelete_inner (m : AppBindings) (l acc : List v1.Binding) :
    l.foldl (fun toDelete ab =>
        if !(«exists» m ab) then toDelete ++ [ab] else toDelete) acc
      = acc ++ l.filter (fun ab => !(«exists» m ab)) := by
  induction l generalizing acc with
  | nil => simp
  | cons a l ih =>
    rw [List.foldl_cons, ih]
    cases h : «exists» m a <;> simp [List.filter_cons, h]

theorem toDelete_outer (m : AppBindings) (ls : List (List v1.Binding))
    (acc : List v1.Binding) :
    ls.foldl (fun toDelete adapterBindings =>
        adapterBindings.foldl (fun toDelete ab =>
          if !(«exists» m ab) then toDelete ++ [ab] else toDelete) toDelete) acc
      = acc ++ ls.flatten.filter (fun ab => !(«exists» m ab)) := by
  induction ls generalizing acc with
  | nil => simp
  | cons l ls ih =>
    rw [List.foldl_cons, ih, toDelete_inner]
    simp [List.filter_append]

theorem toDeleteLoop_eq (m : AppBindings) (ls : List (List v1.Binding)) :
    toDeleteLoop m ls = ls.flatten.filter (fun ab => !(«exists» m ab)) := by
  unfold toDeleteLoop
  rw [toDelete_outer]
  rfl

/-! ## Lemmas on traces -/

theorem deletesOf_append (l1 l2 : List PoolCall) :
    deletesOf (l1 ++ l2) = deletesOf l1 ++ deletesOf l2 := by
  induction l1 with
  | nil => rfl
  | cons c l1 ih => cases c <;> simp [deletesOf, ih]

theorem createsOf_append (l1 l2 : List PoolCall) :
    createsOf (l1 ++ l2) = createsOf l1 ++ createsOf l2 := by
  induction l1 with
  | nil => rfl
  | cons c l1 ih => cases c <;> simp [createsOf, ih]

theorem deletesOf_map_Delete (l : List v1.Binding) :
    deletesOf (l.map PoolCall.Delete) = l := by
  induction l with
  | nil => rfl
  | cons b l ih => simp [deletesOf, ih]

theorem deletesOf_map_Create (l : List v1.Binding) :
    deletesOf (l.map PoolCall.Create) = [] := by
  induction l with
  | nil => rfl
  | cons b l ih => simp [deletesOf, ih]

theorem createsOf_map_Create (l : List v1.Binding) :
    createsOf (l.map PoolCall.Create) = l := by
  induction l with
  | nil => rfl
  | cons b l ih => simp [createsOf, ih]

theorem createsOf_map_Delete (l : List v1.Binding) :
    createsOf (l.map PoolCall.Delete) = [] := by
  induction l with
  | nil => rfl
  | cons b l ih => simp [createsOf, ih]

theorem mem_deletesOf (b : v1.Binding) (l : List PoolCall) :
    b ∈ deletesOf l ↔ PoolCall.Delete b ∈ l := by
  induction l with
  | nil => simp [deletesOf]
  | cons c l ih => cases c <;> simp [deletesOf, ih]

theorem drop_length_append {α : Type} (l1 l2 : List α) :
    (l1 ++ l2).drop l1.length = l2 := by
  simp

namespace Orchestrator

variable {ρ σ : Type}

theorem foldl_callDelete_calls (l : List v1.Binding) (o : Orchestrator ρ σ) :
    (l.foldl callDelete o).calls = o.calls ++ l.map PoolCall.Delete := by
  induction l generalizing o with
  | nil => simp
  | cons b l ih =>
    rw [List.foldl_cons, ih]
    simp [callDelete]

theorem foldl_callCreate_calls (f : String → v1.Binding) (l : List String)
    (o : Orchestrator ρ σ) :
    (l.foldl (fun o drain => o.callCreate (f drain)) o).calls
      = o.calls ++ (l.map f).map PoolCall.Create := by
  induction l generalizing o with
  | nil => simp
  | cons d l ih =>
    rw [List.foldl_cons, ih]
    simp [callCreate]

theorem createBindings_entries_calls (es : List (String × CupsBinding))
    (o : Orchestrator ρ σ) :
    (es.foldl
      (fun o e =>
        e.2.Drains.foldl
          (fun o drain =>
            o.callCreate { Hostname := e.2.Hostname, AppId := e.1, Drain := drain })
          o)
      o).calls
      = o.calls ++ (es.flatMap (fun e => e.2.Drains.map
          (fun d => ({ Hostname := e.2.Hostname, AppId := e.1, Drain := d } : v1.Binding)))).map
            PoolCall.Create := by
  induction es generalizing o with
  | nil => simp
  | cons e es ih =>
    rw [List.foldl_cons, ih,
      foldl_callCreate_calls (fun d => { Hostname := e.2.Hostname, AppId := e.1, Drain := d })]
    simp

theorem createBindings_calls (o : Orchestrator ρ σ) (expected : AppBindings) :
    (o.createBindings expected).calls
      = o.calls ++ (expectedTriples expected).map PoolCall.Create :=
  createBindings_entries_calls expected.entries o

theorem cleanupBindings_calls_ok (o : Orchestrator ρ σ) (expected : AppBindings)
    (actual : List (List v1.Binding))
    (hList : (o.pool.List o.poolSt).1 = (actual, none)) :
    (o.cleanupBindings expected).calls
      = o.calls ++ PoolCall.List ::
          (actual.flatten.filter (fun ab => !(«exists» expected ab))).map PoolCall.Delete := by
  unfold cleanupBindings
  simp only [callList, hList]
  rw [foldl_callDelete_calls, toDeleteLoop_eq]
  simp

theorem cleanupBindings_calls_err (o : Orchestrator ρ σ) (expected : AppBindings)
    (actual : List (List v1.Binding)) (e : String)
    (hList : (o.pool.List o.poolSt).1 = (actual, some e)) :
    (o.cleanupBindings expected).calls = o.calls ++ [PoolCall.List] := by
  unfold cleanupBindings
  simp only [callList, hList]

end Orchestrator

/-! ## Lemmas on one tick -/

namespace Orchestrator

variable {ρ σ : Type}

theorem tick_fetch_err (o : Orchestrator ρ σ) (expected : AppBindings) (e : String)
    (hFetch : (o.reader.FetchBindings o.readerSt).1 = (expected, some e)) :
    o.tick = { o with readerSt := (o.reader.FetchBindings o.readerSt).2 } := by
  unfold tick
  simp only [hFetch]

theorem Run_ticks_not_returned (n : Nat) (o : Orchestrator ρ σ) :
    (o.Run (List.replicate n Select.tick)).2 = false := by
  induction n generalizing o with
  | zero => rfl
  | succ n ih => exact ih o.tick

theorem tick_calls_list_ok (o : Orchestrator ρ σ) (expected : AppBindings)
    (actual : List (List v1.Binding))
    (hFetch : (o.reader.FetchBindings o.readerSt).1 = (expected, none))
    (hList : (o.pool.List o.poolSt).1 = (actual, none)) :
    o.tick.calls = o.calls ++ PoolCall.List ::
      ((actual.flatten.filter (fun ab => !(«exists» expected ab))).map PoolCall.Delete
        ++ (expectedTriples expected).map PoolCall.Create) := by
  unfold tick
  simp only [hFetch]
  rw [createBindings_calls,
    cleanupBindings_calls_ok { o with readerSt := (o.reader.FetchBindings o.readerSt).2 }
      expected actual hList]
  simp

theorem tick_calls_list_err (o : Orchestrator ρ σ) (expected : AppBindings)
    (actual : List (List v1.Binding)) (e : String)
    (hFetch : (o.reader.FetchBindings o.readerSt).1 = (expected, none))
    (hList : (o.pool.List o.poolSt).1 = (actual, some e)) :
    o.tick.calls = o.calls ++ PoolCall.List ::
      (expectedTriples expected).map PoolCall.Create := by
  unfold tick
  simp only [hFetch]
  rw [createBindings_calls,
    cleanupBindings_calls_err { o with readerSt := (o.reader.FetchBindings o.readerSt).2 }
      expected actual e hList]
  simp

theorem tick_calls_shape (o : Orchestrator ρ σ) (expected : AppBindings)
    (hFetch : (o.reader.FetchBindings o.readerSt).1 = (expected, none)) :
    ∃ ds : List v1.Binding,
      o.tick.calls = o.calls ++ PoolCall.List ::
        (ds.map PoolCall.Delete ++ (expectedTriples expected).map PoolCall.Create) := by
  cases hl : (o.pool.List o.poolSt).1 with
  | mk actual lerr =>
    cases lerr with
    | none => exact ⟨_, tick_calls_list_ok o expected actual hFetch hl⟩
    | some e =>
      refine ⟨[], ?_⟩
      rw [tick_calls_list_err o expected actual e hFetch hl]
      simp

end Orchestrator

theorem deletes_before_creates (ds cs : List v1.Binding) (i j : Nat) (b c : v1.Binding)
    (hi : (ds.map PoolCall.Delete ++ cs.map PoolCall.Create)[i]? = some (PoolCall.Delete b))
    (hj : (ds.map PoolCall.Delete ++ cs.map PoolCall.Create)[j]? = some (PoolCall.Create c)) :
    i < j := by
  have hlen : (ds.map PoolCall.Delete).length = ds.length := List.length_map _ _
  by_cases h1 : i < ds.length
  · by_cases h2 : j < ds.length
    · rw [List.getElem?_append_left (by rw [hlen]; exact h2), List.getElem?_map] at hj
      cases hd : ds[j]? with
      | none => rw [hd] at hj; cases hj
      | some x => rw [hd] at hj; cases hj
    · omega
  · rw [List.getElem?_append_right (by rw [hlen]; omega), List.getElem?_map] at hi
    cases hc : cs[i - (ds.map PoolCall.Delete).length]? with
    | none => rw [hc] at hi; cases hi
    | some x => rw [hc] at hi; cases hi

theorem exists_eq_false_iff_triples (m : AppBindings) (b : v1.Binding) :
    «exists» m b = false ↔
      ∀ t ∈ expectedTriples m, ¬ (t.AppId = b.AppId ∧ t.Drain = b.Drain) := by
  rw [← Bool.not_eq_true, exists_eq_true_iff]
  constructor
  · intro h t ht hEq
    unfold expectedTriples at ht
    obtain ⟨e, he, hte⟩ := List.mem_flatMap.1 ht
    obtain ⟨d, hd, htd⟩ := List.mem_map.1 hte
    apply h
    refine ⟨e.2, ?_, ?_⟩
    · rw [← hEq.1, ← htd]
      exact he
    · rw [← hEq.2, ← htd]
      exact hd
  · rintro h ⟨cb, hcb, hd⟩
    apply h { Hostname := cb.Hostname, AppId := b.AppId, Drain := b.Drain }
    · unfold expectedTriples
      exact List.mem_flatMap.2 ⟨(b.AppId, cb), hcb, List.mem_map.2 ⟨b.Drain, hd, rfl⟩⟩
    · exact ⟨rfl, rfl⟩

/-! ## Claims on `cleanupBindings` and `createBindings` -/

/-- C1: when `pool.List()` succeeds with `actual`, `cleanupBindings` calls `List`
once and then `Delete` on exactly the flattened `actual` (adapters in order,
bindings in order) filtered to the bindings for which `exists` is false, one
`Delete` per occurrence, for every behaviour of the pool; `exists` is false
exactly when the AppId is not a key of `expected` or the drain is not among that
app's drains; no `Delete` is issued for a binding whose AppId and drain are in
`expected`. -/
theorem cleanupBindings_deletes_exactly_missing {ρ σ : Type} (o : Orchestrator ρ σ)
    (expected : AppBindings) (actual : List (List v1.Binding))
    (hList : (o.pool.List o.poolSt).1 = (actual, none)) :
    (o.cleanupBindings expected).calls
        = o.calls ++ PoolCall.List ::
            (actual.flatten.filter (fun ab => !(«exists» expected ab))).map PoolCall.Delete
    ∧ deletesOf ((o.cleanupBindings expected).calls.drop o.calls.length)
        = actual.flatten.filter (fun ab => !(«exists» expected ab))
    ∧ (∀ ab, «exists» expected ab = false ↔
        (ab.AppId ∉ expected.entries.map Prod.fst ∨
          ∃ cb, (ab.AppId, cb) ∈ expected.entries ∧ ab.Drain ∉ cb.Drains))
    ∧ (∀ ab, «exists» expected ab = false →
        (deletesOf ((o.cleanupBindings expected).calls.drop o.calls.length)).count ab
          = actual.flatten.count ab)
    ∧ (∀ ab cb, (ab.AppId, cb) ∈ expected.entries → ab.Drain ∈ cb.Drains →
        PoolCall.Delete ab ∉ (o.cleanupBindings expected).calls.drop o.calls.length) := by
  have hcalls := Orchestrator.cleanupBindings_calls_ok o expected actual hList
  have hdel : deletesOf ((o.cleanupBindings expected).calls.drop o.calls.length)
      = actual.flatten.filter (fun ab => !(«exists» expected ab)) := by
    rw [hcalls, drop_length_append]
    show deletesOf (List.map PoolCall.Delete _) = _
    exact deletesOf_map_Delete _
  refine ⟨hcalls, hdel, exists_eq_false_iff expected, ?_, ?_⟩
  · intro ab hab
    rw [hdel, List.count_filter]
    simp [hab]
  · intro ab cb hmem hdrain hin
    rw [← mem_deletesOf, hdel, List.mem_filter] at hin
    have : «exists» expected ab = true := (exists_eq_true_iff expected ab).2 ⟨cb, hmem, hdrain⟩
    simp [this] at hin

/-- C1 at the scenario of the specification: `(h,a,d1),(h,a,d2)` listed,
`{a: {h, [d1]}}` expected: the only `Delete` is that of `(h,a,d2)`. -/
theorem cleanupBindings_deletes_exactly_missing_witness :
    deletesOf (((sampleOrchestrator expectedD1 none [[bindingD1, bindingD2]] none).cleanupBindings
        expectedD1).calls.drop
        (sampleOrchestrator expectedD1 none [[bindingD1, bindingD2]] none).calls.length)
      = [bindingD2] :=
  (cleanupBindings_deletes_exactly_missing
    (sampleOrchestrator expectedD1 none [[bindingD1, bindingD2]] none) expectedD1
    [[bindingD1, bindingD2]] rfl).2.1.trans (by decide)

/-- C2: `createBindings` calls nothing but `Create`; the bindings passed are, as
a multiset, the triples `(Hostname, appID, drain)` over every app of `expected`
and every position of its `Drains`, for every behaviour of the pool and
whatever order the map is visited in; their number is the sum of the lengths
of the `Drains`; an app without drains gets no `Create`. -/
theorem createBindings_creates_every_drain {ρ σ : Type} (o : Orchestrator ρ σ)
    (expected : AppBindings) :
    (o.createBindings expected).calls
        = o.calls ++ (expectedTriples expected).map PoolCall.Create
    ∧ (↑(createsOf ((o.createBindings expected).calls.drop o.calls.length))
          : Multiset v1.Binding) = ↑(expectedTriples expected)
    ∧ (createsOf ((o.createBindings expected).calls.drop o.calls.length)).length
        = (expected.entries.map (fun e => e.2.Drains.length)).sum
    ∧ (∀ visited : AppBindings, visited.entries.Perm expected.entries →
        (↑(createsOf ((o.createBindings visited).calls.drop o.calls.length))
          : Multiset v1.Binding) = ↑(expectedTriples expected))
    ∧ (∀ appID cb, (appID, cb) ∈ expected.entries → cb.Drains = [] →
        ∀ b ∈ createsOf ((o.createBindings expected).calls.drop o.calls.length),
          b.AppId ≠ appID) := by
  have hcr : ∀ e : AppBindings,
      createsOf ((o.createBindings e).calls.drop o.calls.length) = expectedTriples e := by
    intro e
    rw [Orchestrator.createBindings_calls, drop_length_append, createsOf_map_Create]
  refine ⟨Orchestrator.createBindings_calls o expected, ?_, ?_, ?_, ?_⟩
  · rw [hcr]
  · rw [hcr]
    unfold expectedTriples
    rw [List.length_flatMap]
    congr 1
    apply List.map_congr_left
    intro e _
    simp
  · intro visited hperm
    rw [hcr]
    exact Multiset.coe_eq_coe.2 (List.Perm.flatMap_right _ hperm)
  · intro appID cb hmem hnil b hb hid
    rw [hcr] at hb
    unfold expectedTriples at hb
    obtain ⟨e, he, hbe⟩ := List.mem_flatMap.1 hb
    obtain ⟨d, hd, hbd⟩ := List.mem_map.1 hbe
    have hk : e.1 = appID := by rw [← hid, ← hbd]
    have h1 := (expected.get?_eq_some_iff appID cb).2 hmem
    have h2 := (expected.get?_eq_some_iff appID e.2).2 (by rw [← hk]; exact he)
    rw [h1] at h2
    cases h2
    rw [hnil] at hd
    cases hd

/-- C2 at `{a: {h, [d1, d2]}, b: {h, [d1]}}`: three `Create` calls. -/
theorem createBindings_creates_every_drain_witness :
    ((sampleOrchestrator expectedTwoApps none [] none).createBindings expectedTwoApps).calls
      = [PoolCall.Create { Hostname := "h", AppId := "a", Drain := "d1" },
         PoolCall.Create { Hostname := "h", AppId := "a", Drain := "d2" },
         PoolCall.Create { Hostname := "h", AppId := "b", Drain := "d1" }] :=
  (createBindings_creates_every_drain
    (sampleOrchestrator expectedTwoApps none [] none) expectedTwoApps).1.trans (by decide)

/-! ## Claims on one tick of `Run` -/

/-- C3, as stated, fails: with `{a: {h, [d1]}}` expected and `(other, a, d1)`
listed by the pool without error, the listed binding equals no expected triple
in all three fields (the hostnames differ), yet the tick issues no `Delete` for
it, because `exists` compares AppId and drain only. -/
theorem tick_keeps_binding_on_other_hostname :
    bindingOtherHost ∈ [[bindingOtherHost]].flatten
    ∧ bindingOtherHost ∉ expectedTriples expectedD1
    ∧ PoolCall.Delete bindingOtherHost ∉
        (sampleOrchestrator expectedD1 none [[bindingOtherHost]] none).tick.calls := by
  decide

/-- C3, amended: when `FetchBindings` succeeds with `expected` and `pool.List()`
succeeds, every listed binding whose pair (AppId, Drain) equals that of no
triple of `expected`, whatever the hostnames, gets a `pool.Delete` in the
tick. -/
theorem tick_deletes_binding_absent_by_app_and_drain {ρ σ : Type} (o : Orchestrator ρ σ)
    (expected : AppBindings) (actual : List (List v1.Binding)) (b : v1.Binding)
    (hFetch : (o.reader.FetchBindings o.readerSt).1 = (expected, none))
    (hList : (o.pool.List o.poolSt).1 = (actual, none))
    (hb : b ∈ actual.flatten)
    (habsent : ∀ t ∈ expectedTriples expected, ¬ (t.AppId = b.AppId ∧ t.Drain = b.Drain)) :
    PoolCall.Delete b ∈ o.tick.calls.drop o.calls.length := by
  rw [Orchestrator.tick_calls_list_ok o expected actual hFetch hList, drop_length_append]
  apply List.mem_cons_of_mem
  apply List.mem_append_left
  apply List.mem_map.2
  refine ⟨b, List.mem_filter.2 ⟨hb, ?_⟩, rfl⟩
  rw [(exists_eq_false_iff_triples expected b).2 habsent]
  rfl

/-- C3 amended, at the scenario of the specification: `(h,a,d2)` is deleted. -/
theorem tick_deletes_binding_absent_by_app_and_drain_witness :
    PoolCall.Delete bindingD2 ∈
      (sampleOrchestrator expectedD1 none [[bindingD1, bindingD2]] none).tick.calls.drop
        (sampleOrchestrator expectedD1 none [[bindingD1, bindingD2]] none).calls.length :=
  tick_deletes_binding_absent_by_app_and_drain
    (sampleOrchestrator expectedD1 none [[bindingD1, bindingD2]] none) expectedD1
    [[bindingD1, bindingD2]] bindingD2 rfl rfl (by decide) (by decide)

/-- At a fixed point (every listed binding is one of the triples of `expected`,
`List` succeeding) the tick issues no `Delete`. -/
theorem tick_at_fixed_point_no_delete {ρ σ : Type} (o : Orchestrator ρ σ)
    (expected : AppBindings) (actual : List (List v1.Binding))
    (hFetch : (o.reader.FetchBindings o.readerSt).1 = (expected, none))
    (hList : (o.pool.List o.poolSt).1 = (actual, none))
    (hfix : ∀ b ∈ actual.flatten, b ∈ expectedTriples expected) :
    deletesOf (o.tick.calls.drop o.calls.length) = [] := by
  rw [Orchestrator.tick_calls_list_ok o expected actual hFetch hList, drop_length_append]
  show deletesOf (List.map PoolCall.Delete _ ++ List.map PoolCall.Create _) = _
  rw [deletesOf_append, deletesOf_map_Delete, deletesOf_map_Create, List.append_nil,
    List.filter_eq_nil_iff]
  intro b hb hex
  have hfalse : «exists» expected b = false := by simpa using hex
  exact (exists_eq_false_iff_triples expected b).1 hfalse b (hfix b hb) ⟨rfl, rfl⟩

/-- C4: at the fixed point where the pool lists exactly the one binding that
`{a: {h, [d1]}}` describes, the tick issues no `Delete` but still issues
`Create((h,a,d1))`: `createBindings` does not diff against `pool.List()`. -/
theorem tick_at_fixed_point_issues_create :
    [[bindingD1]].flatten = expectedTriples expectedD1
    ∧ (sampleOrchestrator expectedD1 none [[bindingD1]] none).tick.calls
        = [PoolCall.List, PoolCall.Create bindingD1] := by
  decide

/-- C5: in a tick whose fetch succeeds, whatever the pool does, the calls made
are one `List`, then only `Delete` calls, then only `Create` calls: `List` is
first and is not repeated, and every `Delete` comes before every `Create`. -/
theorem tick_deletes_precede_creates {ρ σ : Type} (o : Orchestrator ρ σ)
    (expected : AppBindings)
    (hFetch : (o.reader.FetchBindings o.readerSt).1 = (expected, none)) :
    (∃ ds cs : List v1.Binding,
        o.tick.calls = o.calls ++ PoolCall.List ::
          (ds.map PoolCall.Delete ++ cs.map PoolCall.Create))
    ∧ (o.tick.calls.drop o.calls.length)[0]? = some PoolCall.List
    ∧ (∀ i : Nat, (o.tick.calls.drop o.calls.length)[i]? = some PoolCall.List → i = 0)
    ∧ (∀ (i j : Nat) (b c : v1.Binding),
        (o.tick.calls.drop o.calls.length)[i]? = some (PoolCall.Delete b) →
        (o.tick.calls.drop o.calls.length)[j]? = some (PoolCall.Create c) → i < j) := by
  obtain ⟨ds, hds⟩ := Orchestrator.tick_calls_shape o expected hFetch
  refine ⟨⟨ds, _, hds⟩, ?_, ?_, ?_⟩
  · rw [hds, drop_length_append]
    exact List.getElem?_cons_zero
  · intro i hi
    rw [hds, drop_length_append] at hi
    cases i with
    | zero => rfl
    | succ n =>
      exfalso
      rw [List.getElem?_cons_succ] at hi
      have hmem := List.getElem?_mem hi
      rcases List.mem_append.1 hmem with h | h
      · obtain ⟨x, _, hx⟩ := List.mem_map.1 h
        cases hx
      · obtain ⟨x, _, hx⟩ := List.mem_map.1 h
        cases hx
  · intro i j b c hi hj
    rw [hds, drop_length_append] at hi hj
    cases i with
    | zero =>
      rw [List.getElem?_cons_zero] at hi
      cases hi
    | succ n =>
      cases j with
      | zero =>
        rw [List.getElem?_cons_zero] at hj
        cases hj
      | succ m =>
        rw [List.getElem?_cons_succ] at hi hj
        have := deletes_before_creates ds _ n m b c hi hj
        omega

/-- C5 at the scenario of the specification, with `{a: {h, [d1]}}` expected and
`(h,a,d1),(h,a,d2)` listed: the fetch succeeds and the first call of the tick
is `List`. -/
theorem tick_deletes_precede_creates_witness :
    ((sampleOrchestrator expectedD1 none [[bindingD1, bindingD2]] none).reader.FetchBindings
        (sampleOrchestrator expectedD1 none [[bindingD1, bindingD2]] none).readerSt).1
      = (expectedD1, none)
    ∧ ((sampleOrchestrator expectedD1 none [[bindingD1, bindingD2]] none).tick.calls.drop
        (sampleOrchestrator expectedD1 none [[bindingD1, bindingD2]] none).calls.length)[0]?
      = some PoolCall.List :=
  ⟨rfl,
    (tick_deletes_precede_creates
      (sampleOrchestrator expectedD1 none [[bindingD1, bindingD2]] none) expectedD1 rfl).2.1⟩

/-- The trace of the tick at the scenario of the specification. -/
theorem tick_scenario_trace :
    (sampleOrchestrator expectedD1 none [[bindingD1, bindingD2]] none).tick.calls
      = [PoolCall.List, PoolCall.Delete bindingD2, PoolCall.Create bindingD1] := by
  decide

/-- C6: when `FetchBindings` returns an error, the tick changes nothing but the
state of the reader: no call is made on the pool (the trace and the pool state
are as before), and `Run` goes on with the next outcome of its `select`; after
that tick alone it has not returned. -/
theorem tick_skipped_on_fetch_error {ρ σ : Type} (o : Orchestrator ρ σ)
    (expected : AppBindings) (e : String)
    (hFetch : (o.reader.FetchBindings o.readerSt).1 = (expected, some e)) :
    o.tick = { o with readerSt := (o.reader.FetchBindings o.readerSt).2 }
    ∧ o.tick.calls = o.calls
    ∧ o.tick.poolSt = o.poolSt
    ∧ (∀ rest : List Select,
        o.Run (Select.tick :: rest)
          = Orchestrator.Run { o with readerSt := (o.reader.FetchBindings o.readerSt).2 } rest)
    ∧ (o.Run [Select.tick]).2 = false
    ∧ (∀ n : Nat, (o.Run (List.replicate n Select.tick)).2 = false) := by
  have ht := Orchestrator.tick_fetch_err o expected e hFetch
  refine ⟨ht, by rw [ht], by rw [ht], ?_, rfl, ?_⟩
  · intro rest
    show Orchestrator.Run o.tick rest = _
    rw [ht]
  · intro n
    exact Orchestrator.Run_ticks_not_returned n o

/-- C6 at a reader that always fails, over a pool that lists two bindings: three
ticks make no call on the pool and `Run` has not returned. -/
theorem tick_skipped_on_fetch_error_witness :
    ((sampleOrchestrator expectedD1 (some "fetch failed") [[bindingD1, bindingD2]] none).reader.FetchBindings
        (sampleOrchestrator expectedD1 (some "fetch failed") [[bindingD1, bindingD2]] none).readerSt).1
      = (expectedD1, some "fetch failed")
    ∧ (sampleOrchestrator expectedD1 (some "fetch failed")
        [[bindingD1, bindingD2]] none).tick.calls
      = (sampleOrchestrator expectedD1 (some "fetch failed")
        [[bindingD1, bindingD2]] none).calls :=
  ⟨rfl,
    (tick_skipped_on_fetch_error
      (sampleOrchestrator expectedD1 (some "fetch failed") [[bindingD1, bindingD2]] none)
      expectedD1 "fetch failed" rfl).2.1⟩

/-- C7: when `FetchBindings` succeeds and `pool.List()` returns an error, with
or without bindings, the tick calls `List`, no `Delete`, and `Create` for every
triple of `expected`; the `Create` calls are those of any tick on the same
`expected` in which `List` succeeds. -/
theorem tick_list_error_skips_cleanup_only {ρ σ : Type} (o : Orchestrator ρ σ)
    (expected : AppBindings) (actual : List (List v1.Binding)) (e : String)
    (hFetch : (o.reader.FetchBindings o.readerSt).1 = (expected, none))
    (hList : (o.pool.List o.poolSt).1 = (actual, some e)) :
    o.tick.calls = o.calls ++ PoolCall.List :: (expectedTriples expected).map PoolCall.Create
    ∧ deletesOf (o.tick.calls.drop o.calls.length) = []
    ∧ createsOf (o.tick.calls.drop o.calls.length) = expectedTriples expected
    ∧ (∀ (ρ2 σ2 : Type) (o2 : Orchestrator ρ2 σ2) (actual2 : List (List v1.Binding)),
        (o2.reader.FetchBindings o2.readerSt).1 = (expected, none) →
        (o2.pool.List o2.poolSt).1 = (actual2, none) →
        createsOf (o2.tick.calls.drop o2.calls.length)
          = createsOf (o.tick.calls.drop o.calls.length)) := by
  have hcalls := Orchestrator.tick_calls_list_err o expected actual e hFetch hList
  have hcr : createsOf (o.tick.calls.drop o.calls.length) = expectedTriples expected := by
    rw [hcalls, drop_length_append]
    show createsOf (List.map PoolCall.Create _) = _
    exact createsOf_map_Create _
  refine ⟨hcalls, ?_, hcr, ?_⟩
  · rw [hcalls, drop_length_append]
    show deletesOf (List.map PoolCall.Create _) = _
    exact deletesOf_map_Create _
  · intro ρ2 σ2 o2 actual2 hF2 hL2
    rw [hcr, Orchestrator.tick_calls_list_ok o2 expected actual2 hF2 hL2, drop_length_append]
    show createsOf (List.map PoolCall.Delete _ ++ List.map PoolCall.Create _) = _
    rw [createsOf_append, createsOf_map_Delete, createsOf_map_Create]
    rfl

/-- C7 at a pool whose `List` fails while returning `(h,a,d2)`: the tick calls
`List` and then `Create((h,a,d1))`, and nothing else. -/
theorem tick_list_error_skips_cleanup_only_witness :
    (sampleOrchestrator expectedD1 none [[bindingD2]] (some "list failed")).tick.calls
      = [PoolCall.List, PoolCall.Create bindingD1] :=
  (tick_list_error_skips_cleanup_only
    (sampleOrchestrator expectedD1 none [[bindingD2]] (some "list failed")) expectedD1
    [[bindingD2]] "list failed" rfl rfl).1.trans (by decide)

/-! ## `Bindings.DrainCount` -/

theorem DrainCount_foldl (b : List v1.Binding) (search : v1.Binding) (n : Nat) :
    b.foldl (fun count binding => if binding == search then count + 1 else count) n
      = n + b.count search := by
  induction b generalizing n with
  | nil => simp
  | cons x b ih =>
    rw [List.foldl_cons, ih, List.count_cons]
    by_cases h : x = search
    · simp [h]
      omega
    · simp [h]

theorem DrainCount_eq_count (b : Bindings) (search : v1.Binding) :
    b.DrainCount search = b.count search := by
  unfold Bindings.DrainCount
  rw [DrainCount_foldl]
  simp

theorem count_eq_positions (b : List v1.Binding) (search : v1.Binding) :
    b.count search
      = ((List.range b.length).filter (fun i => b[i]? == some search)).length := by
  induction b with
  | nil => rfl
  | cons x b ih =>
    rw [List.length_cons, List.range_succ_eq_map, List.filter_cons, List.filter_map,
      List.count_cons, ih]
    have hfun : ((fun i => (x :: b)[i]? == some search) ∘ Nat.succ)
        = (fun i => b[i]? == some search) := by
      funext i
      simp
    rw [hfun]
    by_cases h : x = search
    · simp [h]
    · simp [h]

/-- C8: `DrainCount` is the number of positions of `b` holding a binding equal to
`search` in all three fields; it is zero exactly when no element equals
`search`, at most the length of `b`, the same for every reordering of `b`, and
an element differing from `search` in some field adds nothing. -/
theorem DrainCount_counts_equal_bindings (b : Bindings) (search : v1.Binding) :
    b.DrainCount search
        = ((List.range b.length).filter (fun i => b[i]? == some search)).length
    ∧ (∀ i : Nat, b[i]? = some search ↔
        ∃ x, b[i]? = some x ∧ x.Hostname = search.Hostname ∧ x.AppId = search.AppId
          ∧ x.Drain = search.Drain)
    ∧ (b.DrainCount search = 0 ↔ ∀ x ∈ b, x ≠ search)
    ∧ b.DrainCount search ≤ b.length
    ∧ (∀ b2 : Bindings, b.Perm b2 → b2.DrainCount search = b.DrainCount search)
    ∧ (∀ (l1 l2 : Bindings) (x : v1.Binding), b = l1 ++ x :: l2 →
        (x.Hostname ≠ search.Hostname ∨ x.AppId ≠ search.AppId ∨ x.Drain ≠ search.Drain) →
        b.DrainCount search = Bindings.DrainCount (l1 ++ l2) search) := by
  refine ⟨?_, ?_, ?_, ?_, ?_, ?_⟩
  · rw [DrainCount_eq_count, count_eq_positions]
  · intro i
    constructor
    · intro h
      exact ⟨search, h, rfl, rfl, rfl⟩
    · rintro ⟨x, hx, h1, h2, h3⟩
      rw [hx]
      cases x
      cases search
      simp only at h1 h2 h3
      rw [h1, h2, h3]
  · rw [DrainCount_eq_count, List.count_eq_zero]
    constructor
    · intro h x hx hEq
      exact h (hEq ▸ hx)
    · intro h hmem
      exact h search hmem rfl
  · rw [DrainCount_eq_count]
    exact List.count_le_length _ _
  · intro b2 hperm
    rw [DrainCount_eq_count, DrainCount_eq_count]
    exact (hperm.count_eq search).symm
  · intro l1 l2 x hb hx
    have hne : x ≠ search := by
      intro hEq
      rw [hEq] at hx
      rcases hx with h | h | h <;> exact h rfl
    rw [DrainCount_eq_count, DrainCount_eq_count, hb, List.count_append, List.count_append,
      List.count_cons_of_ne (Ne.symm hne)]

/-- C8 on a sequence holding `(h,a,d1)` twice, once next to a binding that
differs in the hostname only: the count is two. -/
theorem DrainCount_counts_equal_bindings_witness :
    Bindings.DrainCount [bindingD1, bindingOtherHost, bindingD2, bindingD1] bindingD1 = 2 :=
  (DrainCount_counts_equal_bindings
    [bindingD1, bindingOtherHost, bindingD2, bindingD1] bindingD1).1.trans (by decide)

/-! ## `Orchestrator.Stop` -/

namespace Orchestrator

variable {ρ σ : Type}

theorem Stop_of_once (o : Orchestrator ρ σ) (h : o.once = true) (received : Bool) :
    o.Stop received = some o := by
  unfold Stop
  rw [if_pos h]

theorem StopAll_of_once (flags : List Bool) (o : Orchestrator ρ σ) (h : o.once = true) :
    o.StopAll flags = some o := by
  induction flags with
  | nil => rfl
  | cons f flags ih =>
    unfold StopAll
    rw [Stop_of_once o h f]
    exact ih

theorem Stop_blocks_without_receiver (o : Orchestrator ρ σ) (h : o.once = false)
    (rest : List Bool) : o.StopAll (false :: rest) = none := by
  unfold StopAll Stop
  simp [h]

end Orchestrator

/-- C9, as stated, fails: on a new orchestrator whose `Run` is not receiving on
`done`, the first `Stop()` is stuck in its send on the unbuffered channel and
never returns, so of two successive calls none returns and no value is handed
over on `done`. -/
theorem Stop_never_returns_when_not_received :
    (sampleOrchestrator expectedD1 none [] none).once = false
    ∧ (sampleOrchestrator expectedD1 none [] none).Stop false = none
    ∧ (sampleOrchestrator expectedD1 none [] none).StopAll [false, false] = none
    ∧ ¬ ∃ later : Orchestrator Unit Unit,
        (sampleOrchestrator expectedD1 none [] none).StopAll [false, false] = some later
          ∧ later.done = (sampleOrchestrator expectedD1 none [] none).done + 1 := by
  refine ⟨rfl, rfl, rfl, ?_⟩
  rintro ⟨later, hlater, _⟩
  have hnone : (sampleOrchestrator expectedD1 none [] none).StopAll [false, false] = none := rfl
  rw [hnone] at hlater
  cases hlater

/-- C9, amended: on an orchestrator whose `sync.Once` has not fired, any number
`k ≥ 1` of successive `Stop()` calls, the send of the first being received by
`Run`, all return and leave exactly one more value sent on `done`, sent by the
first call; every call after the first returns the orchestrator as it found
it, whether or not anyone receives on `done`. When nobody receives the first
send, the first call does not return. -/
theorem Stop_sends_once {ρ σ : Type} (o : Orchestrator ρ σ) (k : Nat) (flags : List Bool)
    (hfresh : o.once = false) (hk : 1 ≤ k) (hlen : flags.length = k)
    (hrecv : ∀ f, flags.head? = some f → f = true) :
    o.Stop true = some { o with once := true, done := o.done + 1 }
    ∧ o.StopAll flags = some { o with once := true, done := o.done + 1 }
    ∧ (∀ (later : Orchestrator ρ σ) (n : Nat), n < k →
        o.StopAll (flags.take (n + 1)) = some later →
        later.done = o.done + 1 ∧ ∀ received : Bool, later.Stop received = some later)
    ∧ (∀ others : List Bool, o.StopAll (false :: others) = none) := by
  have hfirst : o.Stop true = some { o with once := true, done := o.done + 1 } := by
    unfold Orchestrator.Stop
    simp [hfresh]
  obtain ⟨f, rest, hflags⟩ : ∃ f rest, flags = f :: rest := by
    cases flags with
    | nil =>
      simp at hlen
      omega
    | cons f rest => exact ⟨f, rest, rfl⟩
  subst hflags
  have hf : f = true := hrecv f rfl
  subst hf
  have hall : ∀ tail : List Bool,
      o.StopAll (true :: tail) = some { o with once := true, done := o.done + 1 } := by
    intro tail
    unfold Orchestrator.StopAll
    rw [hfirst]
    exact Orchestrator.StopAll_of_once tail _ rfl
  refine ⟨hfirst, hall rest, ?_, Orchestrator.Stop_blocks_without_receiver o hfresh⟩
  intro later n _ hlater
  rw [List.take_succ_cons, hall] at hlater
  cases hlater
  exact ⟨rfl, fun received => Orchestrator.Stop_of_once _ rfl received⟩

/-- C9 amended, on a new orchestrator stopped three times, the first send being
received: one value sent on `done`. -/
theorem Stop_sends_once_witness :
    ((sampleOrchestrator expectedD1 none [] none).StopAll [true, false, false]).map
        (fun o => (o.once, o.done))
      = some (true, 1) :=
  congrArg (Option.map (fun o => (o.once, o.done)))
    (Stop_sends_once (sampleOrchestrator expectedD1 none [] none) 3 [true, false, false]
      rfl (by decide) rfl (by decide)).2.1

/-! ## `Connector.Connect` -/

/-- C10: if `NextHostPort` returns an error, `Connect` returns it with a nil
closer and a nil client and dials nothing; if the dial returns an error,
`Connect` returns it with a nil closer and a nil client; the error returned is
nil exactly when both steps succeed, and then one dial was made, to the
host:port the balancer gave and with the connector's options, the closer is the
connection dialed and the client is built on it. -/
theorem Connect_error_contract {β δ Conn Client Opt : Type} (c : Connector β Opt)
    (g : Grpc δ Conn Client Opt) (w : Net β δ Opt) :
    (∀ e, (c.balancer.NextHostPort w.balancerSt).1.2 = some e →
        (c.Connect g w).1 = (none, none, some e) ∧ (c.Connect g w).2.dials = w.dials)
    ∧ (∀ e, (c.balancer.NextHostPort w.balancerSt).1.2 = none →
        (g.Dial (c.balancer.NextHostPort w.balancerSt).1.1 c.opts w.netSt).1.2 = some e →
        (c.Connect g w).1 = (none, none, some e))
    ∧ ((c.Connect g w).1.2.2 = none ↔
        ((c.balancer.NextHostPort w.balancerSt).1.2 = none ∧
          (g.Dial (c.balancer.NextHostPort w.balancerSt).1.1 c.opts w.netSt).1.2 = none))
    ∧ ((c.Connect g w).1.2.2 = none →
        (c.Connect g w).2.dials
            = w.dials ++ [((c.balancer.NextHostPort w.balancerSt).1.1, c.opts)]
        ∧ (c.Connect g w).1.1
            = some (g.Dial (c.balancer.NextHostPort w.balancerSt).1.1 c.opts w.netSt).1.1
        ∧ (c.Connect g w).1.2.1
            = some (g.NewEgressClient
                (g.Dial (c.balancer.NextHostPort w.balancerSt).1.1 c.opts w.netSt).1.1)) := by
  unfold Connector.Connect
  cases hb : (c.balancer.NextHostPort w.balancerSt).1.2 with
  | some eb => simp [hb]
  | none =>
    cases hd : (g.Dial (c.balancer.NextHostPort w.balancerSt).1.1 c.opts w.netSt).1.2 with
    | some ed => simp [hb, hd]
    | none => simp [hb, hd]

/-- C10 on a balancer with one candidate that the dialer reaches. -/
theorem Connect_error_contract_witness :
    ((NewConnector sampleBalancer [7]).Connect sampleGrpc
        { balancerSt := ["10.0.0.1:8082"], netSt := ["10.0.0.1:8082"], dials := [] }).2.dials
      = [("10.0.0.1:8082", [7])] :=
  ((Connect_error_contract (NewConnector sampleBalancer [7]) sampleGrpc
      { balancerSt := ["10.0.0.1:8082"], netSt := ["10.0.0.1:8082"], dials := [] }).2.2.2
    (by decide)).1

/-! ## Blacklist filter: the scenarios of the tests -/

theorem parseIPv4_sample :
    parseIPv4 "127.0.2.2" = some { o1 := 127, o2 := 0, o3 := 2, o4 := 2 }
    ∧ parseIPv4 "127.0.2.2.1" = none
    ∧ parseIPv4 "256.0.0.1" = none
    ∧ parseIPv4 "1..2.3" = none := by
  decide

theorem NewBlacklistRanges_tests :
    NewBlacklistRanges [{ Start := "127.0.2.2", End := "127.0.2.4" }]
        = Except.ok { Ranges := [{ Start := "127.0.2.2", End := "127.0.2.4" }] }
    ∧ NewBlacklistRanges [{ Start := "127.0.2.2.1", End := "127.0.2.4" }]
        = Except.error "invalid IP Address for Blacklist IP Range: 127.0.2.2.1"
    ∧ NewBlacklistRanges [{ Start := "10.10.10.10", End := "10.8.10.12" }]
        = Except.error
            "invalid Blacklist IP Range: Start 10.10.10.10 has to be before End 10.8.10.12"
    ∧ NewBlacklistRanges [{ Start := "127.0.2.2", End := "127.0.2.2" }]
        = Except.ok { Ranges := [{ Start := "127.0.2.2", End := "127.0.2.2" }] } := by
  refine ⟨?_, ?_, ?_, ?_⟩ <;> rfl

/-! ## Blacklist filter: `CheckBlacklist` -/

theorem IPv4.toUInt32_lt (ip : IPv4) : ip.toUInt32 < 2 ^ 32 := by
  unfold IPv4.toUInt32
  have h1 := ip.o1.isLt
  have h2 := ip.o2.isLt
  have h3 := ip.o3.isLt
  have h4 := ip.o4.isLt
  omega

theorem IPv4.toUInt32_injective (x y : IPv4) (h : x.toUInt32 = y.toUInt32) : x = y := by
  unfold IPv4.toUInt32 at h
  have hx1 := x.o1.isLt
  have hx2 := x.o2.isLt
  have hx3 := x.o3.isLt
  have hx4 := x.o4.isLt
  have hy1 := y.o1.isLt
  have hy2 := y.o2.isLt
  have hy3 := y.o3.isLt
  have hy4 := y.o4.isLt
  cases x
  cases y
  simp only at h hx1 hx2 hx3 hx4 hy1 hy2 hy3 hy4
  simp only [IPv4.mk.injEq]
  refine ⟨Fin.ext ?_, Fin.ext ?_, Fin.ext ?_, Fin.ext ?_⟩ <;> omega

theorem validateRange_eq_none (r : BlacklistRange) (h : validateRange r = none) :
    ∃ s e, parseIPv4 r.Start = some s ∧ parseIPv4 r.End = some e
      ∧ s.toUInt32 ≤ e.toUInt32 := by
  unfold validateRange at h
  cases hs : parseIPv4 r.Start with
  | none => simp [hs] at h
  | some s =>
    cases he : parseIPv4 r.End with
    | none => simp [hs, he] at h
    | some e =>
      simp only [hs, he] at h
      by_cases hlt : e.toUInt32 < s.toUInt32
      · simp [hlt] at h
      · exact ⟨s, e, rfl, rfl, Nat.le_of_not_lt hlt⟩

theorem validateRanges_eq_none (rs : List BlacklistRange) (h : validateRanges rs = none) :
    ∀ r ∈ rs, validateRange r = none := by
  induction rs with
  | nil => intro r hr; cases hr
  | cons a rs ih =>
    unfold validateRanges at h
    cases ha : validateRange a with
    | some err => simp [ha] at h
    | none =>
      simp only [ha] at h
      intro r hr
      rcases List.mem_cons.1 hr with hEq | hmem
      · rw [hEq]; exact ha
      · exact ih h r hmem

theorem NewBlacklistRanges_eq_ok (ranges : List BlacklistRange) (f : BlacklistRanges)
    (h : NewBlacklistRanges ranges = Except.ok f) :
    f.Ranges = ranges ∧ validateRanges ranges = none := by
  unfold NewBlacklistRanges at h
  cases hv : validateRanges ranges with
  | some err => simp [hv] at h
  | none =>
    simp only [hv] at h
    cases h
    exact ⟨rfl, rfl⟩

theorem contains_iff (r : BlacklistRange) (ip : IPv4) :
    r.contains ip = true ↔
      ∃ s e, parseIPv4 r.Start = some s ∧ parseIPv4 r.End = some e
        ∧ s.toUInt32 ≤ ip.toUInt32 ∧ ip.toUInt32 ≤ e.toUInt32 := by
  unfold BlacklistRange.contains
  cases hs : parseIPv4 r.Start with
  | none => simp
  | some s =>
    cases he : parseIPv4 r.End with
    | none => simp
    | some e => simp

theorem checkRanges_ne_none_iff (ip : IPv4) (rs : List BlacklistRange) :
    checkRanges ip rs ≠ none ↔ ∃ r ∈ rs, r.contains ip = true := by
  induction rs with
  | nil => simp [checkRanges]
  | cons a rs ih =>
    unfold checkRanges
    by_cases ha : a.contains ip = true
    · simp [ha]
    · simp only [ha, Bool.false_eq_true, if_false, List.mem_cons, exists_eq_or_imp, false_or]
      exact ih

/-- C11: for every set of ranges that `NewBlacklistRanges` accepts and every IPv4
address `ip`, `CheckBlacklist(ip)` returns an error exactly when some configured
range has `Start ≤ ip ≤ End`, the addresses compared as 32-bit unsigned
big-endian integers, both endpoints included; every accepted range has two
valid endpoints with `Start ≤ End`; the set of zero ranges is accepted and its
filter returns no error. -/
theorem CheckBlacklist_iff_in_some_range (ranges : List BlacklistRange)
    (f : BlacklistRanges) (ip : IPv4)
    (hOk : NewBlacklistRanges ranges = Except.ok f) :
    (f.CheckBlacklist ip ≠ none ↔
        ∃ r ∈ ranges, ∃ s e, parseIPv4 r.Start = some s ∧ parseIPv4 r.End = some e
          ∧ s.toUInt32 ≤ ip.toUInt32 ∧ ip.toUInt32 ≤ e.toUInt32)
    ∧ (∀ r ∈ ranges, ∃ s e, parseIPv4 r.Start = some s ∧ parseIPv4 r.End = some e
          ∧ s.toUInt32 ≤ e.toUInt32
          ∧ f.CheckBlacklist s ≠ none ∧ f.CheckBlacklist e ≠ none)
    ∧ ip.toUInt32 < 2 ^ 32
    ∧ (ranges = [] → f.CheckBlacklist ip = none)
    ∧ NewBlacklistRanges [] = Except.ok { Ranges := [] }
    ∧ BlacklistRanges.CheckBlacklist { Ranges := [] } ip = none := by
  obtain ⟨hr, hv⟩ := NewBlacklistRanges_eq_ok ranges f hOk
  have hiff : ∀ x : IPv4, f.CheckBlacklist x ≠ none ↔
      ∃ r ∈ ranges, ∃ s e, parseIPv4 r.Start = some s ∧ parseIPv4 r.End = some e
        ∧ s.toUInt32 ≤ x.toUInt32 ∧ x.toUInt32 ≤ e.toUInt32 := by
    intro x
    unfold BlacklistRanges.CheckBlacklist
    rw [hr, checkRanges_ne_none_iff]
    constructor
    · rintro ⟨r, hmem, hc⟩
      exact ⟨r, hmem, (contains_iff r x).1 hc⟩
    · rintro ⟨r, hmem, hc⟩
      exact ⟨r, hmem, (contains_iff r x).2 hc⟩
  refine ⟨hiff ip, ?_, ip.toUInt32_lt, ?_, rfl, rfl⟩
  · intro r hmem
    obtain ⟨s, e, hs, he, hle⟩ := validateRange_eq_none r (validateRanges_eq_none ranges hv r hmem)
    exact ⟨s, e, hs, he, hle,
      (hiff s).2 ⟨r, hmem, s, e, hs, he, Nat.le_refl _, hle⟩,
      (hiff e).2 ⟨r, hmem, s, e, hs, he, hle, Nat.le_refl _⟩⟩
  · intro hnil
    unfold BlacklistRanges.CheckBlacklist
    rw [hr, hnil]
    rfl

/-- C11 at the scenario of the tests: `127.0.2.2` lies in `127.0.1.2 - 127.0.3.4`
and is refused, and the endpoint `127.0.3.4` is refused as well. -/
theorem CheckBlacklist_iff_in_some_range_witness :
    NewBlacklistRanges [{ Start := "127.0.1.2", End := "127.0.3.4" }]
        = Except.ok { Ranges := [{ Start := "127.0.1.2", End := "127.0.3.4" }] }
    ∧ BlacklistRanges.CheckBlacklist
        { Ranges := [{ Start := "127.0.1.2", End := "127.0.3.4" }] }
        { o1 := 127, o2 := 0, o3 := 2, o4 := 2 } ≠ none :=
  ⟨rfl,
    (CheckBlacklist_iff_in_some_range [{ Start := "127.0.1.2", End := "127.0.3.4" }]
      { Ranges := [{ Start := "127.0.1.2", End := "127.0.3.4" }] }
      { o1 := 127, o2 := 0, o3 := 2, o4 := 2 } rfl).1.2
      ⟨{ Start := "127.0.1.2", End := "127.0.3.4" }, List.mem_singleton.2 rfl,
        { o1 := 127, o2 := 0, o3 := 1, o4 := 2 }, { o1 := 127, o2 := 0, o3 := 3, o4 := 4 },
        by decide, by decide, by decide, by decide⟩⟩

/-- The empty filter of the tests allows `127.0.0.1`; an address just outside a
range is allowed, the two endpoints are not. -/
theorem CheckBlacklist_tests :
    BlacklistRanges.CheckBlacklist { Ranges := [] } { o1 := 127, o2 := 0, o3 := 0, o4 := 1 }
        = none
    ∧ BlacklistRanges.CheckBlacklist
        { Ranges := [{ Start := "127.0.1.2", End := "127.0.3.4" }] }
        { o1 := 127, o2 := 0, o3 := 3, o4 := 5 } = none
    ∧ BlacklistRanges.CheckBlacklist
        { Ranges := [{ Start := "127.0.1.2", End := "127.0.3.4" }] }
        { o1 := 127, o2 := 0, o3 := 1, o4 := 1 } = none
    ∧ BlacklistRanges.CheckBlacklist
        { Ranges := [{ Start := "127.0.1.2", End := "127.0.3.4" }] }
        { o1 := 127, o2 := 0, o3 := 1, o4 := 2 } ≠ none := by
  decide

end ScalableSyslog
